import Mathlib

/-!
# Verification of the dns-soa-monitor polling-and-lag-computation engine

A shallow embedding of `getSerial`, `getSerials`, and the body of
`runDomainMonitor` from `main.go` of travis-ci/dns-soa-monitor, together
with theorems checking the specified properties of the SOA fetcher, the
serial aggregator, the lag evaluator and the per-domain scheduler loop.

Machine integers: SOA serials are `uint32` in the source and are modelled
as `Nat` (every value produced by the DNS client is `< 2 ^ 32`; the code
never performs arithmetic on them that could wrap — the only operations
are `>` comparisons and a widening conversion to `int64` before a
subtraction, modelled as exact `Int` subtraction, which cannot overflow
`int64` for inputs below `2 ^ 32`).
-/

/-- Go error values as produced by the `pkg/errors` library: a base error
created by `errors.New` / `errors.Errorf`, or an error wrapped with a
message by `errors.Wrapf`. -/
inductive GoErr where
  | base (msg : String)
  | wrapped (msg : String) (cause : GoErr)
deriving DecidableEq

/-- `errors.Wrapf` from `pkg/errors`: wrapping a nil error returns nil
(`func Wrapf(err error, ...) error { if err == nil { return nil } ... }`). -/
def wrapf (err : Option GoErr) (msg : String) : Option GoErr :=
  match err with
  | none => none
  | some e => some (.wrapped msg e)

/-- An SOA resource record; only the `Serial` field (a `uint32`) is used. -/
structure SOARecord where
  serial : Nat
deriving DecidableEq

/-- A record in the answer section of a DNS response: either an SOA record
(the `*dns.SOA` case of the type assertion) or a record of any other type. -/
inductive RR where
  | soa (t : SOARecord)
  | other
deriving DecidableEq

/-- The part of a `dns.Msg` response that `getSerial` inspects: the
response code and the answer section. -/
structure Msg where
  rcode : Nat
  answer : List RR
deriving DecidableEq

/-- `dns.RcodeSuccess` is 0. -/
def rcodeSuccess : Nat := 0

/-- `getSerial` from `main.go`, as a function of the outcome of
`dns.Exchange` (the returned message `r`, which may be nil, and the
returned error `err`).  The Go function returns a `(uint32, error)` pair;
a nil second component signals success.  Note that the second guard
(`r == nil || r.Rcode != dns.RcodeSuccess`) returns
`errors.Wrapf(err, "failed to get an valid answer")`, and on that path
`err` is necessarily nil (the first guard returned otherwise), so the
wrap produces a nil error. -/
def getSerial (r : Option Msg) (err : Option GoErr) : Nat × Option GoErr :=
  match err with
  | some e => (0, wrapf (some e) "failed to exchange")
  | none =>
    match r with
    | none => (0, wrapf none "failed to get an valid answer")
    | some msg =>
      if msg.rcode ≠ rcodeSuccess then (0, wrapf none "failed to get an valid answer")
      else if msg.answer.length = 0 then (0, some (.base "no records returned for soa query"))
      else if msg.answer.length > 1 then (0, some (.base "too many records returned for soa query"))
      else
        match msg.answer with
        | RR.soa t :: _ => (t.serial, none)
        | _ => (0, some (.base "no soa record returned"))

/-- The state that `runDomainMonitor` carries across loop iterations
(`maxSerial` and `maxSerialPrimaryServer` are declared before the `for`
loop, under the comment "remember max serial between polls"). -/
structure MonitorState where
  maxSerial : Nat
  maxSerialPrimaryServer : String
deriving DecidableEq

/-- The primary-reconciliation loop of `runDomainMonitor`: scan
`primaryServers` in order; a primary present in `serials` whose serial is
strictly greater than the running maximum becomes the new maximum and is
recorded as the reference primary. -/
def reconcilePrimaries (serials : String → Option Nat) (primaries : List String)
    (maxSerial : Nat) (maxServer : String) : Nat × String :=
  match primaries with
  | [] => (maxSerial, maxServer)
  | p :: rest =>
    match serials p with
    | none => reconcilePrimaries serials rest maxSerial maxServer
    | some s =>
      if s > maxSerial then reconcilePrimaries serials rest s p
      else reconcilePrimaries serials rest maxSerial maxServer

/-- The lag-computation loop of `runDomainMonitor`: for each target server
present in `serials` (absent servers are skipped by `continue`), append
one sample `int64(maxSerial) - int64(secondarySerial)` and update the
running `maxLagSeconds` accumulator with a strict comparison.
`samples` and `maxLag` are the loop accumulators; the call site passes
`[]` and `0` (`maxLagSeconds := int64(0)`). -/
def lagLoop (serials : String → Option Nat) (targets : List String) (maxSerial : Nat)
    (samples : List (String × Int)) (maxLag : Int) : List (String × Int) × Int :=
  match targets with
  | [] => (samples, maxLag)
  | srv :: rest =>
    match serials srv with
    | none => lagLoop serials rest maxSerial samples maxLag
    | some s =>
      lagLoop serials rest maxSerial (samples ++ [(srv, (maxSerial : Int) - (s : Int))])
        (if (maxSerial : Int) - (s : Int) > maxLag then (maxSerial : Int) - (s : Int) else maxLag)

/-- The observable result of one iteration of the `runDomainMonitor` loop:
either the iteration hit the `maxSerialPrimaryServer == ""` branch
(quorum failure), or it published one gauge sample per present target
plus the `max_lag_seconds` gauge. -/
inductive CycleOutcome where
  | quorumFailure
  | published (samples : List (String × Int)) (maxLag : Int)
deriving DecidableEq

/-- One iteration of `runDomainMonitor`: the carried state after the
iteration, the evaluation-level error events recorded (`processError`
calls made outside `getSerials`), the outcome, and whether the iteration
reached the `time.Sleep` at the bottom of the loop body (`slept = false`
models the `continue` statement, which jumps to the next iteration
without sleeping). -/
structure CycleResult where
  state : MonitorState
  errors : List String
  outcome : CycleOutcome
  slept : Bool
deriving DecidableEq

/-- The body of the `for` loop in `runDomainMonitor`: build
`targetServers` (primaries followed by secondaries), reconcile the
primaries into the carried state, and either record one error and
`continue` (skipping `time.Sleep`) when `maxSerialPrimaryServer` is still
empty, or run the lag loop, publish, and sleep. -/
def monitorCycle (domainName : String) (primaryServers secondaryServers : List String)
    (serials : String → Option Nat) (st : MonitorState) : CycleResult :=
  let targetServers := primaryServers ++ secondaryServers
  let r := reconcilePrimaries serials primaryServers st.maxSerial st.maxSerialPrimaryServer
  if r.2 = "" then
    { state := ⟨r.1, r.2⟩,
      errors := ["no primary server responded for " ++ domainName],
      outcome := .quorumFailure,
      slept := false }
  else
    let lr := lagLoop serials targetServers r.1 [] 0
    { state := ⟨r.1, r.2⟩, errors := [], outcome := .published lr.1 lr.2, slept := true }

/-- Successive iterations of the `runDomainMonitor` loop, one poll result
per cycle, threading the carried state. -/
def monitorRun (domainName : String) (primaryServers secondaryServers : List String)
    (polls : List (String → Option Nat)) (st : MonitorState) : List CycleResult :=
  match polls with
  | [] => []
  | f :: rest =>
    let c := monitorCycle domainName primaryServers secondaryServers f st
    c :: monitorRun domainName primaryServers secondaryServers rest c.state

/-- Go map assignment `serials[server] = serial`: overwrite the value if
the key is present, otherwise add the binding. -/
def mapSet (mp : List (String × Nat)) (k : String) (v : Nat) : List (String × Nat) :=
  if mp.any (fun q => q.1 == k) then mp.map (fun q => if q.1 == k then (k, v) else q)
  else mp ++ [(k, v)]

/-- One goroutine completion inside `getSerials`: a fetch whose
`getSerial` call returned a non-nil error sends that error on the
channel and stores nothing; a fetch with a nil error stores its serial
under the server's key (under the mutex). -/
def applyFetch (acc : List (String × Nat) × List GoErr) (job : String × Nat × Option GoErr) :
    List (String × Nat) × List GoErr :=
  match job.2.2 with
  | some e => (acc.1, acc.2 ++ [e])
  | none => (mapSet acc.1 job.1 job.2.1, acc.2)

/-- `getSerials` from `main.go`, over the list of completed fetches in
completion order: each element pairs a server (one element of
`targetServers`) with the `(uint32, error)` result of its `getSerial`
call.  The first component of the result is the `serials` map, the
second the errors sent on the `errs` channel, in order. -/
def getSerials (jobs : List (String × Nat × Option GoErr)) :
    List (String × Nat) × List GoErr :=
  jobs.foldl applyFetch ([], [])

/-- C1: the claim says every response with a non-success response code, or
a nil response, yields a Failure.  The code instead returns `(0, nil)` —
a success carrying serial 0 — on both inputs, because the second guard
wraps `err`, which is necessarily nil on that path, and
`errors.Wrapf(nil, ...)` returns nil.  Evaluating the embedded
`getSerial` at a SERVFAIL response (rcode 2) with a nil exchange error,
and at a nil response with a nil exchange error. -/
theorem getSerial_nonSuccessRcode_returns_success :
    getSerial (some { rcode := 2, answer := [] }) none = (0, none) ∧
    getSerial none none = (0, none) := by
  constructor <;> rfl

theorem init_le_foldl_max (l : List Nat) (m : Nat) : m ≤ l.foldl max m := by
  induction l generalizing m with
  | nil => exact le_refl m
  | cons a t ih => exact le_trans (le_max_left m a) (ih (max m a))

theorem reconcilePrimaries_fst_mono (serials : String → Option Nat) (primaries : List String)
    (m : Nat) (r : String) : m ≤ (reconcilePrimaries serials primaries m r).1 := by
  induction primaries generalizing m r with
  | nil => exact le_refl m
  | cons p rest ih =>
    cases hsp : serials p with
    | none => simpa only [reconcilePrimaries, hsp] using ih m r
    | some s =>
      by_cases hgt : s > m
      · simp only [reconcilePrimaries, hsp, if_pos hgt]
        exact le_trans (le_of_lt hgt) (ih s p)
      · simpa only [reconcilePrimaries, hsp, if_neg hgt] using ih m r

theorem reconcilePrimaries_le_of_present (serials : String → Option Nat)
    (primaries : List String) (m : Nat) (r : String) (p : String) (s : Nat)
    (hp : p ∈ primaries) (hs : serials p = some s) :
    s ≤ (reconcilePrimaries serials primaries m r).1 := by
  induction primaries generalizing m r with
  | nil => cases hp
  | cons q rest ih =>
    rcases List.mem_cons.mp hp with h | h
    · subst h
      by_cases hgt : s > m
      · simp only [reconcilePrimaries, hs, if_pos hgt]
        exact reconcilePrimaries_fst_mono serials rest s p
      · simp only [reconcilePrimaries, hs, if_neg hgt]
        exact le_trans (not_lt.mp hgt) (reconcilePrimaries_fst_mono serials rest m r)
    · cases hq : serials q with
      | none => simpa only [reconcilePrimaries, hq] using ih m r h
      | some t =>
        by_cases hgt : t > m
        · simpa only [reconcilePrimaries, hq, if_pos hgt] using ih t q h
        · simpa only [reconcilePrimaries, hq, if_neg hgt] using ih m r h

theorem reconcilePrimaries_eq_self (serials : String → Option Nat)
    (primaries : List String) (m : Nat) (r : String)
    (h : ∀ p ∈ primaries, ∀ s, serials p = some s → s ≤ m) :
    reconcilePrimaries serials primaries m r = (m, r) := by
  induction primaries with
  | nil => rfl
  | cons q rest ih =>
    cases hq : serials q with
    | none =>
      simp only [reconcilePrimaries, hq]
      exact ih (fun p hp s hs => h p (List.mem_cons_of_mem q hp) s hs)
    | some s =>
      have hle : s ≤ m := h q (List.mem_cons_self q rest) s hq
      simp only [reconcilePrimaries, hq, if_neg (not_lt.mpr hle)]
      exact ih (fun p hp s hs => h p (List.mem_cons_of_mem q hp) s hs)

theorem reconcilePrimaries_idem (serials : String → Option Nat)
    (primaries : List String) (m : Nat) (r : String) :
    reconcilePrimaries serials primaries
        (reconcilePrimaries serials primaries m r).1
        (reconcilePrimaries serials primaries m r).2
      = reconcilePrimaries serials primaries m r := by
  rw [reconcilePrimaries_eq_self serials primaries _ _
    (fun p hp s hs => reconcilePrimaries_le_of_present serials primaries m r p s hp hs)]

/-- C9: evaluation (primary reconciliation followed by lag computation) is
idempotent: running one full iteration again from the state produced by
the previous iteration, on the same poll result, primaries and
secondaries, reproduces the previous iteration exactly — same carried
state, same errors, same outcome (max serial, reference primary and
LagSamples), same control flow. -/
theorem monitorCycle_evaluation_idempotent (domainName : String)
    (primaryServers secondaryServers : List String)
    (serials : String → Option Nat) (st : MonitorState) :
    monitorCycle domainName primaryServers secondaryServers serials
        (monitorCycle domainName primaryServers secondaryServers serials st).state
      = monitorCycle domainName primaryServers secondaryServers serials st := by
  have hstate : (monitorCycle domainName primaryServers secondaryServers serials st).state
      = ⟨(reconcilePrimaries serials primaryServers st.maxSerial st.maxSerialPrimaryServer).1,
         (reconcilePrimaries serials primaryServers st.maxSerial st.maxSerialPrimaryServer).2⟩ := by
    simp only [monitorCycle]
    split <;> rfl
  rw [hstate]
  simp only [monitorCycle, reconcilePrimaries_idem]

/-- C3 (amended): primary reconciliation runs over the state carried from
earlier cycles, not over the poll result alone.  Starting from carried
state `(m0, r0)`, the chosen maximum serial is the maximum of `m0` and
every serial of a primary present in the poll result; when this maximum
still equals `m0` (in particular on exact ties with the carried maximum)
the reference primary is left unchanged, and otherwise the reference
primary becomes the first-enumerated primary holding the new maximum
(exact ties between primaries never reassign it, since only a strictly
greater serial replaces the running maximum).  From the fresh state
`(0, "")` with at least one primary present at a positive serial, this
specializes to the claim as stated. -/
theorem reconcilePrimaries_characterization (serials : String → Option Nat)
    (primaries : List String) (m0 : Nat) (r0 : String) :
    (reconcilePrimaries serials primaries m0 r0).1
        = (primaries.filterMap serials).foldl max m0 ∧
    (if (reconcilePrimaries serials primaries m0 r0).1 = m0
      then (reconcilePrimaries serials primaries m0 r0).2 = r0
      else primaries.find?
          (fun p => serials p == some (reconcilePrimaries serials primaries m0 r0).1)
        = some (reconcilePrimaries serials primaries m0 r0).2) := by
  induction primaries generalizing m0 r0 with
  | nil => exact ⟨rfl, by simp [reconcilePrimaries]⟩
  | cons p rest ih =>
    cases hsp : serials p with
    | none =>
      have h := ih m0 r0
      refine ⟨?_, ?_⟩
      · simpa only [reconcilePrimaries, hsp, List.filterMap_cons_none hsp] using h.1
      · simp only [reconcilePrimaries, hsp]
        split
        · exact (if_pos (by assumption) ▸ h.2 :)
        · rw [List.find?_cons_of_neg _ (by simp [hsp])]
          exact (if_neg (by assumption) ▸ h.2 :)
    | some s =>
      by_cases hgt : s > m0
      · have h := ih s p
        have hfst : (reconcilePrimaries serials (p :: rest) m0 r0).1
            = (reconcilePrimaries serials rest s p).1 := by
          simp only [reconcilePrimaries, hsp, if_pos hgt]
        have hsnd : (reconcilePrimaries serials (p :: rest) m0 r0).2
            = (reconcilePrimaries serials rest s p).2 := by
          simp only [reconcilePrimaries, hsp, if_pos hgt]
        have hsle : s ≤ (reconcilePrimaries serials rest s p).1 :=
          reconcilePrimaries_fst_mono serials rest s p
        refine ⟨?_, ?_⟩
        · rw [hfst, List.filterMap_cons_some hsp, List.foldl_cons,
            max_eq_right (le_of_lt hgt)]
          exact h.1
        · rw [hfst, hsnd,
            if_neg (by omega : ¬ (reconcilePrimaries serials rest s p).1 = m0)]
          by_cases hRs : (reconcilePrimaries serials rest s p).1 = s
          · rw [List.find?_cons_of_pos _ (by simp [hsp, hRs])]
            have h2 := h.2
            rw [if_pos hRs] at h2
            rw [h2]
          · rw [List.find?_cons_of_neg _ (by simp [hsp]; omega)]
            have h2 := h.2
            rw [if_neg hRs] at h2
            exact h2
      · have h := ih m0 r0
        have hfst : (reconcilePrimaries serials (p :: rest) m0 r0).1
            = (reconcilePrimaries serials rest m0 r0).1 := by
          simp only [reconcilePrimaries, hsp, if_neg hgt]
        have hsnd : (reconcilePrimaries serials (p :: rest) m0 r0).2
            = (reconcilePrimaries serials rest m0 r0).2 := by
          simp only [reconcilePrimaries, hsp, if_neg hgt]
        have hmle : m0 ≤ (reconcilePrimaries serials rest m0 r0).1 :=
          reconcilePrimaries_fst_mono serials rest m0 r0
        refine ⟨?_, ?_⟩
        · rw [hfst, List.filterMap_cons_some hsp, List.foldl_cons,
            max_eq_left (not_lt.mp hgt)]
          exact h.1
        · rw [hfst, hsnd]
          by_cases hRm : (reconcilePrimaries serials rest m0 r0).1 = m0
          · rw [if_pos hRm]
            have h2 := h.2
            rw [if_pos hRm] at h2
            exact h2
          · rw [if_neg hRm, List.find?_cons_of_neg _ (by simp [hsp]; omega)]
            have h2 := h.2
            rw [if_neg hRm] at h2
            exact h2

/-- C3 counterexample: with primaries `["A", "B"]` and no secondaries, a
first cycle in which only B answers with serial 200 is followed by a
second cycle whose poll result contains exactly one primary entry,
A with serial 100.  The claim says the second evaluation's chosen
max_serial must be 100 (the strictly largest serial among primaries
present in that PollResult) with A as reference primary; the code instead
keeps the remembered maximum 200 and reference primary B (which is not
even present), and evaluates A's lag as 200 - 100 = 100. -/
theorem reconcile_carried_state_counterexample :
    ((monitorRun "d" ["A", "B"] []
        [fun q => if q = "B" then some 200 else none,
         fun q => if q = "A" then some 100 else none] ⟨0, ""⟩).map
      (fun c => (c.state.maxSerial, c.state.maxSerialPrimaryServer, c.outcome)))
      = [(200, "B", .published [("B", 0)] 0), (200, "B", .published [("A", 100)] 100)]
    ∧ (200 : Nat) ≠ 100 := by
  constructor
  · rfl
  · decide

theorem lagLoop_samples_eq (serials : String → Option Nat) (targets : List String)
    (M : Nat) (samples : List (String × Int)) (acc : Int) :
    (lagLoop serials targets M samples acc).1
      = samples ++ (lagLoop serials targets M [] 0).1 := by
  induction targets generalizing samples acc with
  | nil => simp [lagLoop]
  | cons srv rest ih =>
    cases hs : serials srv with
    | none =>
      simp only [lagLoop, hs]
      exact ih samples acc
    | some s =>
      simp only [lagLoop, hs, List.nil_append]
      rw [ih (samples ++ [(srv, (M : Int) - (s : Int))]),
        ih [(srv, (M : Int) - (s : Int))]]
      simp [List.append_assoc]

theorem lagLoop_maxLag_foldl (serials : String → Option Nat) (targets : List String)
    (M : Nat) (samples : List (String × Int)) (acc : Int) :
    (lagLoop serials targets M samples acc).2
      = ((lagLoop serials targets M [] 0).1.map Prod.snd).foldl
          (fun b l => if l > b then l else b) acc := by
  induction targets generalizing samples acc with
  | nil => simp [lagLoop]
  | cons srv rest ih =>
    cases hs : serials srv with
    | none =>
      simp only [lagLoop, hs]
      exact ih samples acc
    | some s =>
      simp only [lagLoop, hs, List.nil_append]
      rw [ih, lagLoop_samples_eq serials rest M [(srv, (M : Int) - (s : Int))]]
      simp [List.foldl_cons]

theorem foldl_ite_max (l : List Int) (a : Int) :
    l.foldl (fun b x => if x > b then x else b) a = l.foldl max a := by
  induction l generalizing a with
  | nil => rfl
  | cons x t ih =>
    simp only [List.foldl_cons]
    rw [ih]
    congr 1
    rcases lt_or_ge a x with h | h
    · rw [if_pos h, max_eq_right (le_of_lt h)]
    · rw [if_neg (not_lt.mpr h), max_eq_left h]

/-- C5 (amended): the reported `max_lag_seconds` gauge equals the maximum
of 0 and all computed LagSample values for the cycle (the accumulator is
initialized to `int64(0)` and only a strictly greater sample replaces
it); in particular, when every computed LagSample is negative — or when
there are none — the reported aggregate is 0, not the (negative) maximum
sample. -/
theorem lagLoop_maxLag_eq (serials : String → Option Nat) (targets : List String)
    (M : Nat) :
    (lagLoop serials targets M [] 0).2
      = ((lagLoop serials targets M [] 0).1.map Prod.snd).foldl max 0 := by
  rw [lagLoop_maxLag_foldl serials targets M [] 0, foldl_ite_max]

/-- C5 counterexample: primaries `["A"]`, secondaries `["D"]`; in the
first cycle A answers with serial 100, in the second only D answers, with
serial 110.  The second cycle computes exactly one LagSample,
`100 - 110 = -10`, so the claim requires the reported max-lag aggregate
to be `-10`; the code reports 0. -/
theorem maxLag_negative_counterexample :
    ((monitorRun "d" ["A"] ["D"]
        [fun q => if q = "A" then some 100 else none,
         fun q => if q = "D" then some 110 else none] ⟨0, ""⟩).map
      (fun c => c.outcome))
      = [.published [("A", 0)] 0, .published [("D", -10)] 0]
    ∧ ((0 : Int) ≠ -10) := by
  exact ⟨rfl, by decide⟩

theorem lagLoop_mem_of_present (serials : String → Option Nat) (targets : List String)
    (M : Nat) (srv : String) (s : Nat) (hmem : srv ∈ targets) (hs : serials srv = some s) :
    (srv, (M : Int) - (s : Int)) ∈ (lagLoop serials targets M [] 0).1 := by
  induction targets with
  | nil => cases hmem
  | cons t rest ih =>
    rcases List.mem_cons.mp hmem with h | h
    · subst h
      simp only [lagLoop, hs, List.nil_append]
      rw [lagLoop_samples_eq]
      exact List.mem_append_left _ (List.mem_singleton.mpr rfl)
    · cases ht : serials t with
      | none =>
        simp only [lagLoop, ht]
        exact ih h
      | some u =>
        simp only [lagLoop, ht, List.nil_append]
        rw [lagLoop_samples_eq]
        exact List.mem_append_right _ (ih h)

theorem lagLoop_mem_inv (serials : String → Option Nat) (targets : List String)
    (M : Nat) (q : String × Int) (hq : q ∈ (lagLoop serials targets M [] 0).1) :
    q.1 ∈ targets ∧ ∃ s, serials q.1 = some s ∧ q.2 = (M : Int) - (s : Int) := by
  induction targets with
  | nil => cases hq
  | cons t rest ih =>
    cases ht : serials t with
    | none =>
      simp only [lagLoop, ht] at hq
      have h := ih hq
      exact ⟨List.mem_cons_of_mem t h.1, h.2⟩
    | some u =>
      simp only [lagLoop, ht, List.nil_append] at hq
      rw [lagLoop_samples_eq] at hq
      rcases List.mem_append.mp hq with h | h
      · rcases List.mem_singleton.mp h with rfl
        exact ⟨List.mem_cons_self t rest, u, ht, rfl⟩
      · have h2 := ih h
        exact ⟨List.mem_cons_of_mem t h2.1, h2.2⟩

/-- C4: for every target server present in the poll result, the computed
LagSample is exactly `int64(maxSerial) - int64(serverSerial)` — the
subtraction is performed after widening both `uint32` values to a signed
64-bit domain, so it is the exact integer difference, possibly negative,
published as-is with no clamping; since both operands are below `2 ^ 32`
the difference lies strictly between `-2 ^ 32` and `2 ^ 32` and cannot
wrap in `int64`.  Conversely every sample produced by the loop is such an
exact difference for a present server. -/
theorem lagSample_exact (serials : String → Option Nat) (targets : List String)
    (M : Nat) (srv : String) (s : Nat)
    (hmem : srv ∈ targets) (hs : serials srv = some s)
    (hM : M < 2 ^ 32) (hs32 : s < 2 ^ 32) :
    (srv, (M : Int) - (s : Int)) ∈ (lagLoop serials targets M [] 0).1 ∧
    (-(2 ^ 32) : Int) < (M : Int) - (s : Int) ∧ ((M : Int) - (s : Int)) < 2 ^ 32 ∧
    ∀ q ∈ (lagLoop serials targets M [] 0).1,
      ∃ t, serials q.1 = some t ∧ q.2 = (M : Int) - (t : Int) := by
  have hM2 : (M : Int) < 2 ^ 32 := by exact_mod_cast hM
  have hs2 : (s : Int) < 2 ^ 32 := by exact_mod_cast hs32
  have hM0 : (0 : Int) ≤ (M : Int) := Int.natCast_nonneg M
  have hs0 : (0 : Int) ≤ (s : Int) := Int.natCast_nonneg s
  have hpow : (2 : Int) ^ 32 = 4294967296 := by norm_num
  refine ⟨lagLoop_mem_of_present serials targets M srv s hmem hs, ?_, ?_, ?_⟩
  · rw [hpow] at hs2 ⊢
    omega
  · rw [hpow] at hM2 ⊢
    omega
  · intro q hq
    exact (lagLoop_mem_inv serials targets M q hq).2

/-- C4 witness: with max serial 100 and secondary D present at serial
110, the computed sample is the exact difference `100 - 110 = -10`,
negative and unclamped. -/
theorem lagSample_exact_witness :
    ((("D" : String), (100 : Int) - (110 : Int))
        ∈ (lagLoop (fun q => if q = "D" then some 110 else none) ["D"] 100 [] 0).1)
    ∧ (100 : Int) - 110 = -10 ∧ (-10 : Int) < 0 := by
  refine ⟨(lagSample_exact (fun q => if q = "D" then some 110 else none) ["D"] 100 "D" 110
      (List.mem_singleton.mpr rfl) (by simp) (by norm_num) (by norm_num)).1,
    by norm_num, by norm_num⟩

theorem reconcilePrimaries_no_present (serials : String → Option Nat)
    (primaries : List String) (m : Nat) (r : String)
    (h : ∀ p ∈ primaries, serials p = none) :
    reconcilePrimaries serials primaries m r = (m, r) := by
  induction primaries with
  | nil => rfl
  | cons q rest ih =>
    simp only [reconcilePrimaries, h q (List.mem_cons_self q rest)]
    exact ih (fun p hp => h p (List.mem_cons_of_mem q hp))

/-- C2 (amended): a cycle whose poll result contains no entry for any
configured primary yields the quorum-failure outcome (one error event,
zero LagSamples, unchanged state) only when no earlier cycle ever set the
reference primary (the carried `maxSerialPrimaryServer` is still empty,
as in the first cycle); when an earlier cycle did set it, such a cycle
instead publishes lags against the remembered maximum. -/
theorem monitorCycle_noPrimaryEver (domainName : String)
    (primaryServers secondaryServers : List String)
    (serials : String → Option Nat) (st : MonitorState)
    (hst : st.maxSerialPrimaryServer = "")
    (hnone : ∀ p ∈ primaryServers, serials p = none) :
    (monitorCycle domainName primaryServers secondaryServers serials st).outcome
      = .quorumFailure ∧
    (monitorCycle domainName primaryServers secondaryServers serials st).errors.length = 1 ∧
    (monitorCycle domainName primaryServers secondaryServers serials st).state = st := by
  obtain ⟨ms, srv⟩ := st
  simp only at hst
  subst hst
  have hrec := reconcilePrimaries_no_present serials primaryServers ms "" hnone
  simp [monitorCycle, hrec]

/-- C2 witness: first cycle, every fetch failed. -/
theorem monitorCycle_noPrimaryEver_witness :
    (monitorCycle "x" ["A"] [] (fun _ => none) ⟨0, ""⟩).outcome
      = .quorumFailure ∧
    (monitorCycle "x" ["A"] [] (fun _ => none) ⟨0, ""⟩).errors.length = 1 ∧
    (monitorCycle "x" ["A"] [] (fun _ => none) ⟨0, ""⟩).state = ⟨0, ""⟩ :=
  monitorCycle_noPrimaryEver "x" ["A"] [] (fun _ => none) ⟨0, ""⟩ rfl (fun _ _ => rfl)

/-- C2 counterexample: primaries `["A"]`, secondaries `["C"]`.  In the
first cycle A answers with serial 100; in the second cycle no primary has
an entry (only secondary C, at serial 90).  The claim requires the second
evaluation to yield NoPrimaryResponded with zero LagSamples regardless of
earlier cycles; the code instead publishes one LagSample `100 - 90 = 10`
for C (and a max-lag gauge) with no error. -/
theorem noPrimary_carried_counterexample :
    ((monitorRun "d" ["A"] ["C"]
        [fun q => if q = "A" then some 100 else none,
         fun q => if q = "C" then some 90 else none] ⟨0, ""⟩).map
      (fun c => (c.outcome, c.errors.length)))
      = [(.published [("A", 0)] 0, 0), (.published [("C", 10)] 10, 0)]
    ∧ ((fun q => if q = "C" then some 90 else none : String → Option Nat) "A" = none)
    ∧ CycleOutcome.published [("C", 10)] 10 ≠ CycleOutcome.quorumFailure := by
  refine ⟨rfl, rfl, by decide⟩

theorem monitorCycle_published_samples (domainName : String)
    (primaryServers secondaryServers : List String)
    (serials : String → Option Nat) (st : MonitorState)
    (samples : List (String × Int)) (mx : Int)
    (h : (monitorCycle domainName primaryServers secondaryServers serials st).outcome
        = .published samples mx) :
    samples = (lagLoop serials (primaryServers ++ secondaryServers)
        (reconcilePrimaries serials primaryServers st.maxSerial st.maxSerialPrimaryServer).1
        [] 0).1 := by
  by_cases hc : (reconcilePrimaries serials primaryServers st.maxSerial
      st.maxSerialPrimaryServer).2 = ""
  · simp [monitorCycle, hc] at h
  · simp [monitorCycle, hc] at h
    exact h.1.symm

/-- C8: a target server absent from the poll result produces no LagSample
in any published outcome (it is skipped by `continue`, never assigned a
zero or default value); furthermore the lag-computation step raises no
error of its own — a publishing cycle records no error events at all, so
the only error ever attributable to an absent server is its original
fetch failure, surfaced earlier by `getSerials`. -/
theorem absentServer_noSample (domainName : String)
    (primaryServers secondaryServers : List String)
    (serials : String → Option Nat) (st : MonitorState) (srv : String)
    (habs : serials srv = none) :
    (∀ l : Int, ∀ samples mx,
        (monitorCycle domainName primaryServers secondaryServers serials st).outcome
          = .published samples mx → (srv, l) ∉ samples) ∧
    ((monitorCycle domainName primaryServers secondaryServers serials st).outcome
        ≠ .quorumFailure →
      (monitorCycle domainName primaryServers secondaryServers serials st).errors = []) := by
  constructor
  · intro l samples mx h hmem
    rw [monitorCycle_published_samples domainName primaryServers secondaryServers serials st
      samples mx h] at hmem
    rcases (lagLoop_mem_inv serials (primaryServers ++ secondaryServers) _ (srv, l) hmem).2
      with ⟨s, hs, _⟩
    rw [habs] at hs
    cases hs
  · intro hout
    by_cases hc : (reconcilePrimaries serials primaryServers st.maxSerial
        st.maxSerialPrimaryServer).2 = ""
    · exact absurd (by simp [monitorCycle, hc]) hout
    · simp [monitorCycle, hc]

/-- C8 witness: primary A answers with serial 5, secondary B does not
answer; the published samples contain no entry for B. -/
theorem absentServer_noSample_witness :
    (monitorCycle "x" ["A"] ["B"] (fun q => if q = "A" then some 5 else none) ⟨0, ""⟩).outcome
      = .published [("A", 0)] 0
    ∧ (("B" : String), (0 : Int)) ∉ ([(("A" : String), (0 : Int))] : List (String × Int)) := by
  refine ⟨rfl, ?_⟩
  exact (absentServer_noSample "x" ["A"] ["B"] (fun q => if q = "A" then some 5 else none)
      ⟨0, ""⟩ "B" rfl).1 0 [("A", 0)] 0 rfl

/-- C6: the claim says a quorum-failure cycle records one ErrorEvent,
publishes no lag metrics, and proceeds to sleeping, so that every poll is
preceded by the previous cycle's sleep.  The code records the error and
publishes nothing, but its `continue` statement jumps back to the top of
the loop BEFORE reaching the `time.Sleep` call, so a quorum-failure
iteration performs no sleep and the next poll starts immediately.
Evaluated at a first cycle in which every fetch failed (`slept = false`);
a publishing cycle, by contrast, does reach the sleep (`slept = true`). -/
theorem quorumFailure_skips_sleep :
    (monitorCycle "example.com" ["ns1"] ["ns2"] (fun _ => none) ⟨0, ""⟩).outcome
      = .quorumFailure
    ∧ (monitorCycle "example.com" ["ns1"] ["ns2"] (fun _ => none) ⟨0, ""⟩).errors.length = 1
    ∧ (monitorCycle "example.com" ["ns1"] ["ns2"] (fun _ => none) ⟨0, ""⟩).slept = false
    ∧ (monitorCycle "example.com" ["ns1"] ["ns2"]
        (fun q => if q = "ns1" then some 7 else none) ⟨0, ""⟩).slept = true :=
  ⟨rfl, rfl, rfl, rfl⟩

/-- The success projection of one completed fetch: the map entry it
writes, if its error was nil. -/
def okPair (j : String × Nat × Option GoErr) : Option (String × Nat) :=
  match j.2.2 with
  | none => some (j.1, j.2.1)
  | some _ => none

theorem foldl_applyFetch_nodup (jobs : List (String × Nat × Option GoErr))
    (acc : List (String × Nat)) (errs : List GoErr)
    (hdisj : ∀ j ∈ jobs, ∀ q ∈ acc, q.1 ≠ j.1)
    (hnd : (jobs.map (fun j => j.1)).Nodup) :
    jobs.foldl applyFetch (acc, errs)
      = (acc ++ jobs.filterMap okPair, errs ++ jobs.filterMap (fun j => j.2.2)) := by
  induction jobs generalizing acc errs with
  | nil => simp
  | cons j rest ih =>
    rcases j with ⟨k, v, e⟩
    simp only [List.map_cons] at hnd
    have hnd2 := List.nodup_cons.mp hnd
    cases e with
    | some err =>
      simp only [List.foldl_cons]
      rw [show applyFetch (acc, errs) (k, v, some err) = (acc, errs ++ [err]) from rfl]
      rw [ih acc (errs ++ [err])
        (fun j hj q hq => hdisj j (List.mem_cons_of_mem _ hj) q hq) hnd2.2]
      simp [List.filterMap_cons, okPair, List.append_assoc]
    | none =>
      have hany : acc.any (fun q => q.1 == k) = false := by
        rw [List.any_eq_false]
        intro q hq
        simp only [beq_iff_eq]
        exact hdisj (k, v, none) (List.mem_cons_self _ _) q hq
      simp only [List.foldl_cons]
      rw [show applyFetch (acc, errs) (k, v, none) = (mapSet acc k v, errs) from rfl]
      rw [show mapSet acc k v = acc ++ [(k, v)] by simp [mapSet, hany]]
      rw [ih (acc ++ [(k, v)]) errs ?_ hnd2.2]
      · simp [List.filterMap_cons, okPair, List.append_assoc]
      · intro j hj q hq
        rcases List.mem_append.mp hq with hq2 | hq2
        · exact hdisj j (List.mem_cons_of_mem _ hj) q hq2
        · rcases List.mem_singleton.mp hq2 with rfl
          intro hkj
          have hkj2 : k = j.1 := hkj
          subst hkj2
          exact hnd2.1 (List.mem_map_of_mem (fun j => j.1) hj)

theorem getSerials_nodup_eq (jobs : List (String × Nat × Option GoErr))
    (hnd : (jobs.map (fun j => j.1)).Nodup) :
    getSerials jobs = (jobs.filterMap okPair, jobs.filterMap (fun j => j.2.2)) := by
  have h := foldl_applyFetch_nodup jobs [] [] (fun j _ q hq => absurd hq (List.not_mem_nil q))
    hnd
  simpa [getSerials] using h

theorem length_filterMap_okPair (jobs : List (String × Nat × Option GoErr)) :
    (jobs.filterMap okPair).length = (jobs.filter (fun j => j.2.2.isNone)).length := by
  induction jobs with
  | nil => rfl
  | cons j rest ih =>
    rcases j with ⟨k, v, e⟩
    cases e with
    | none => simpa [okPair, List.filter_cons] using ih
    | some err => simpa [okPair, List.filter_cons] using ih

/-- C7 (amended): for a target server list without duplicate server names
and for any completion order of the concurrent fetches (any permutation
`jobs2` of the configured fetch outcomes `jobs`), the resulting
PollResult has exactly as many entries as fetches that returned success,
independent of the completion order; every failing server is absent from
the PollResult, every succeeding server is present, and the error channel
carries exactly the failures (one per failing fetch).  When the target
list contains the same server name twice, the Go map collapses the two
successful writes into one entry (see the counterexample), which is the
only deviation from the claim as stated. -/
theorem getSerials_characterization (jobs jobs2 : List (String × Nat × Option GoErr))
    (hperm : jobs2.Perm jobs) (hnd : (jobs.map (fun j => j.1)).Nodup) :
    (getSerials jobs2).1.length = (jobs.filter (fun j => j.2.2.isNone)).length ∧
    (∀ k v e, (k, v, some e) ∈ jobs → ∀ w, (k, w) ∉ (getSerials jobs2).1) ∧
    (∀ k v, (k, v, none) ∈ jobs → ∃ w, (k, w) ∈ (getSerials jobs2).1) ∧
    (getSerials jobs2).2.Perm (jobs.filterMap (fun j => j.2.2)) := by
  have hnd2 : (jobs2.map (fun j => j.1)).Nodup :=
    ((hperm.map (fun j => j.1)).nodup_iff).mpr hnd
  rw [getSerials_nodup_eq jobs2 hnd2]
  refine ⟨?_, ?_, ?_, ?_⟩
  · rw [(hperm.filterMap okPair).length_eq, length_filterMap_okPair]
  · intro k v e hke w hw
    rcases List.mem_filterMap.mp hw with ⟨j, hj, hok⟩
    rcases j with ⟨k2, v2, e2⟩
    cases e2 with
    | some e3 => simp [okPair] at hok
    | none =>
      simp only [okPair, Option.some.injEq, Prod.mk.injEq] at hok
      obtain ⟨rfl, rfl⟩ := hok
      have hj2 : (k2, v2, (none : Option GoErr)) ∈ jobs := hperm.subset hj
      have heq := List.inj_on_of_nodup_map hnd hke hj2 rfl
      simp at heq
  · intro k v hk
    exact ⟨v, List.mem_filterMap.mpr ⟨(k, v, none), hperm.mem_iff.mpr hk, rfl⟩⟩
  · exact hperm.filterMap (fun j => j.2.2)

/-- C7 witness: two distinct servers, one success ("a", serial 7) and one
failure ("b"), completing in reverse order: one map entry, matching the
one successful fetch. -/
theorem getSerials_characterization_witness :
    (getSerials [("b", 0, some (GoErr.base "boom")), ("a", 7, none)]).1.length
      = ([("a", 7, none), ("b", 0, some (GoErr.base "boom"))].filter
          (fun j : String × Nat × Option GoErr => j.2.2.isNone)).length
    ∧ (getSerials [("b", 0, some (GoErr.base "boom")), ("a", 7, none)]).1 = [("a", 7)] := by
  refine ⟨(getSerials_characterization
      [("a", 7, none), ("b", 0, some (GoErr.base "boom"))]
      [("b", 0, some (GoErr.base "boom")), ("a", 7, none)]
      (List.Perm.swap ("a", 7, none) ("b", 0, some (GoErr.base "boom")) [])
      (by decide)).1, rfl⟩

/-- C7 counterexample: the same server name "a" configured twice, both
fetches succeeding (serials 1 and 2, completing in that order).  Two
fetches returned success but the PollResult has a single entry — the
second write overwrites the first in the Go map — so the entry count (1)
differs from the success count (2). -/
theorem getSerials_duplicate_counterexample :
    (getSerials [("a", 1, none), ("a", 2, none)]).1 = [("a", 2)]
    ∧ ([("a", 1, none), ("a", 2, none)].filter
        (fun j : String × Nat × Option GoErr => j.2.2.isNone)).length = 2
    ∧ (1 : Nat) ≠ 2 := by
  exact ⟨rfl, rfl, by decide⟩

theorem monitorCycle_state (domainName : String)
    (primaryServers secondaryServers : List String)
    (serials : String → Option Nat) (st : MonitorState) :
    (monitorCycle domainName primaryServers secondaryServers serials st).state
      = ⟨(reconcilePrimaries serials primaryServers st.maxSerial st.maxSerialPrimaryServer).1,
         (reconcilePrimaries serials primaryServers st.maxSerial st.maxSerialPrimaryServer).2⟩ := by
  simp only [monitorCycle]
  split <;> rfl

theorem reconcilePrimaries_snd_ne_empty (serials : String → Option Nat)
    (primaries : List String) :
    (∀ q ∈ primaries, q ≠ "") → ∀ m r, r ≠ "" →
      (reconcilePrimaries serials primaries m r).2 ≠ "" := by
  induction primaries with
  | nil => exact fun _ _ _ hr => hr
  | cons p rest ih =>
    intro hns m r hr
    have hns2 := fun q hq => hns q (List.mem_cons_of_mem p hq)
    cases hp : serials p with
    | none => simpa only [reconcilePrimaries, hp] using ih hns2 m r hr
    | some s =>
      by_cases hgt : s > m
      · simp only [reconcilePrimaries, hp, if_pos hgt]
        exact ih hns2 s p (hns p (List.mem_cons_self p rest))
      · simp only [reconcilePrimaries, hp, if_neg hgt]
        exact ih hns2 m r hr

theorem reconcilePrimaries_inv (serials : String → Option Nat)
    (primaries : List String) :
    (∀ q ∈ primaries, q ≠ "") → ∀ m r, (0 < m → r ≠ "") →
      (0 < (reconcilePrimaries serials primaries m r).1 →
        (reconcilePrimaries serials primaries m r).2 ≠ "") := by
  induction primaries with
  | nil => exact fun _ _ _ h => h
  | cons p rest ih =>
    intro hns m r hinv
    have hns2 := fun q hq => hns q (List.mem_cons_of_mem p hq)
    cases hp : serials p with
    | none => simpa only [reconcilePrimaries, hp] using ih hns2 m r hinv
    | some s =>
      by_cases hgt : s > m
      · simp only [reconcilePrimaries, hp, if_pos hgt]
        exact ih hns2 s p (fun _ => hns p (List.mem_cons_self p rest))
      · simp only [reconcilePrimaries, hp, if_neg hgt]
        exact ih hns2 m r hinv

/-- The state after running a prefix of poll cycles. -/
def runState (domainName : String) (primaryServers secondaryServers : List String)
    (polls : List (String → Option Nat)) (st : MonitorState) : MonitorState :=
  polls.foldl (fun s f => (monitorCycle domainName primaryServers secondaryServers f s).state) st

theorem monitorRun_append (domainName : String)
    (primaryServers secondaryServers : List String)
    (l1 l2 : List (String → Option Nat)) (st : MonitorState) :
    monitorRun domainName primaryServers secondaryServers (l1 ++ l2) st
      = monitorRun domainName primaryServers secondaryServers l1 st
        ++ monitorRun domainName primaryServers secondaryServers l2
            (runState domainName primaryServers secondaryServers l1 st) := by
  induction l1 generalizing st with
  | nil => rfl
  | cons f rest ih =>
    simp only [List.cons_append, monitorRun, runState, List.foldl_cons, List.append_eq]
    rw [ih]
    rfl

theorem monitorRun_length (domainName : String)
    (primaryServers secondaryServers : List String)
    (polls : List (String → Option Nat)) (st : MonitorState) :
    (monitorRun domainName primaryServers secondaryServers polls st).length
      = polls.length := by
  induction polls generalizing st with
  | nil => rfl
  | cons f rest ih =>
    simp only [monitorRun, List.length_cons, ih]

theorem runState_inv (domainName : String)
    (primaryServers secondaryServers : List String)
    (hns : ∀ q ∈ primaryServers, q ≠ "")
    (polls : List (String → Option Nat)) :
    ∀ st : MonitorState, (0 < st.maxSerial → st.maxSerialPrimaryServer ≠ "") →
      (0 < (runState domainName primaryServers secondaryServers polls st).maxSerial →
        (runState domainName primaryServers secondaryServers polls st).maxSerialPrimaryServer
          ≠ "") := by
  induction polls with
  | nil => exact fun st h => h
  | cons f rest ih =>
    intro st hinv
    simp only [runState, List.foldl_cons]
    have hstep : 0 < (monitorCycle domainName primaryServers secondaryServers f st).state.maxSerial →
        (monitorCycle domainName primaryServers secondaryServers f st).state.maxSerialPrimaryServer
          ≠ "" := by
      rw [monitorCycle_state]
      exact reconcilePrimaries_inv f primaryServers hns st.maxSerial st.maxSerialPrimaryServer hinv
    exact ih (monitorCycle domainName primaryServers secondaryServers f st).state hstep

theorem monitorCycle_not_quorum_of_ne (domainName : String)
    (primaryServers secondaryServers : List String)
    (serials : String → Option Nat) (st : MonitorState)
    (h : (reconcilePrimaries serials primaryServers st.maxSerial st.maxSerialPrimaryServer).2
      ≠ "") :
    (monitorCycle domainName primaryServers secondaryServers serials st).outcome
      ≠ CycleOutcome.quorumFailure := by
  simp [monitorCycle, h]

theorem monitorRun_publishes_of_ne (domainName : String)
    (primaryServers secondaryServers : List String)
    (hns : ∀ q ∈ primaryServers, q ≠ "")
    (polls : List (String → Option Nat)) :
    ∀ st : MonitorState, st.maxSerialPrimaryServer ≠ "" →
      ∀ c ∈ monitorRun domainName primaryServers secondaryServers polls st,
        c.outcome ≠ CycleOutcome.quorumFailure := by
  induction polls with
  | nil => intro st _ c hc; cases hc
  | cons f rest ih =>
    intro st hst c hc
    have hne : (reconcilePrimaries f primaryServers st.maxSerial st.maxSerialPrimaryServer).2
        ≠ "" :=
      reconcilePrimaries_snd_ne_empty f primaryServers hns st.maxSerial
        st.maxSerialPrimaryServer hst
    simp only [monitorRun] at hc
    rcases List.mem_cons.mp hc with rfl | hc2
    · exact monitorCycle_not_quorum_of_ne domainName primaryServers secondaryServers f st hne
    · have hst2 : (monitorCycle domainName primaryServers secondaryServers f st).state.maxSerialPrimaryServer
          ≠ "" := by
        rw [monitorCycle_state]
        exact hne
      exact ih (monitorCycle domainName primaryServers secondaryServers f st).state hst2 c hc2

theorem monitorRun_chain (domainName : String)
    (primaryServers secondaryServers : List String)
    (hns : ∀ q ∈ primaryServers, q ≠ "")
    (polls : List (String → Option Nat)) :
    ∀ st : MonitorState,
      List.Chain (fun a b => a.maxSerial ≤ b.maxSerial ∧
          (a.maxSerialPrimaryServer ≠ "" → b.maxSerialPrimaryServer ≠ ""))
        st ((monitorRun domainName primaryServers secondaryServers polls st).map
          (fun c => c.state)) := by
  induction polls with
  | nil => intro st; exact List.Chain.nil
  | cons f rest ih =>
    intro st
    simp only [monitorRun, List.map_cons]
    refine List.Chain.cons ⟨?_, ?_⟩
      (ih (monitorCycle domainName primaryServers secondaryServers f st).state)
    · rw [monitorCycle_state]
      exact reconcilePrimaries_fst_mono f primaryServers st.maxSerial st.maxSerialPrimaryServer
    · rw [monitorCycle_state]
      exact reconcilePrimaries_snd_ne_empty f primaryServers hns st.maxSerial
        st.maxSerialPrimaryServer

/-- C10 (amended): within one Domain Monitor loop — assuming the
configured primary server names are non-empty strings (an empty name,
possible only through a malformed PRIMARY_SERVERS value, could reset the
reference) — the carried pair satisfies the invariant: `maxSerial` never
decreases from one iteration to the next, and `maxSerialPrimaryServer`,
once non-empty, never becomes empty again.  Consequently, after the
first cycle in which some primary responds with a strictly positive
serial, every later cycle of that domain publishes LagSamples against
the remembered maximum even if no primary answers in that cycle.  (A
primary responding with serial 0 does not set the reference primary —
the update requires a strictly greater serial than the initial 0 — so
the positivity qualification is necessary; see the counterexample.) -/
theorem monitorRun_state_invariant (domainName : String)
    (primaryServers secondaryServers : List String)
    (polls : List (String → Option Nat)) (st : MonitorState)
    (hns : ∀ q ∈ primaryServers, q ≠ "")
    (hinv : 0 < st.maxSerial → st.maxSerialPrimaryServer ≠ "") :
    List.Chain (fun a b => a.maxSerial ≤ b.maxSerial ∧
        (a.maxSerialPrimaryServer ≠ "" → b.maxSerialPrimaryServer ≠ ""))
      st ((monitorRun domainName primaryServers secondaryServers polls st).map
        (fun c => c.state)) ∧
    ∀ pre f post, polls = pre ++ f :: post →
      (∃ p s, p ∈ primaryServers ∧ f p = some s ∧ 0 < s) →
      ∀ c ∈ (monitorRun domainName primaryServers secondaryServers polls st).drop
          (pre.length + 1),
        c.outcome ≠ CycleOutcome.quorumFailure := by
  refine ⟨monitorRun_chain domainName primaryServers secondaryServers hns polls st, ?_⟩
  intro pre f post hpolls hex c hc
  obtain ⟨p, s, hp, hs, hpos⟩ := hex
  subst hpolls
  rw [monitorRun_append domainName primaryServers secondaryServers pre (f :: post) st] at hc
  have hrun : monitorRun domainName primaryServers secondaryServers (f :: post)
      (runState domainName primaryServers secondaryServers pre st)
      = monitorCycle domainName primaryServers secondaryServers f
          (runState domainName primaryServers secondaryServers pre st)
        :: monitorRun domainName primaryServers secondaryServers post
            (monitorCycle domainName primaryServers secondaryServers f
              (runState domainName primaryServers secondaryServers pre st)).state := rfl
  rw [hrun, List.append_cons] at hc
  have hlen2 : (monitorRun domainName primaryServers secondaryServers pre st
      ++ [monitorCycle domainName primaryServers secondaryServers f
        (runState domainName primaryServers secondaryServers pre st)]).length
      = pre.length + 1 := by
    simp [monitorRun_length]
  rw [List.drop_left' hlen2] at hc
  have hinv1 : 0 < (runState domainName primaryServers secondaryServers pre st).maxSerial →
      (runState domainName primaryServers secondaryServers pre st).maxSerialPrimaryServer
        ≠ "" :=
    runState_inv domainName primaryServers secondaryServers hns pre st hinv
  have hact : (monitorCycle domainName primaryServers secondaryServers f
      (runState domainName primaryServers secondaryServers pre st)).state.maxSerialPrimaryServer
      ≠ "" := by
    rw [monitorCycle_state]
    have hle : s ≤ (reconcilePrimaries f primaryServers
        (runState domainName primaryServers secondaryServers pre st).maxSerial
        (runState domainName primaryServers secondaryServers pre st).maxSerialPrimaryServer).1 :=
      reconcilePrimaries_le_of_present f primaryServers _ _ p s hp hs
    exact reconcilePrimaries_inv f primaryServers hns _ _ hinv1 (lt_of_lt_of_le hpos hle)
  exact monitorRun_publishes_of_ne domainName primaryServers secondaryServers hns post _
    hact c hc

/-- C10 witness: primary "p1" answers with serial 5 in the first cycle;
in the second cycle nothing answers at all, yet the cycle still
publishes (against the remembered maximum) instead of failing. -/
theorem monitorRun_state_invariant_witness :
    (monitorCycle "w" ["p1"] [] (fun _ => none)
        (monitorCycle "w" ["p1"] [] (fun q => if q = "p1" then some 5 else none)
          ⟨0, ""⟩).state).outcome
      ≠ CycleOutcome.quorumFailure := by
  have h := (monitorRun_state_invariant "w" ["p1"] []
      [fun q => if q = "p1" then some 5 else none, fun _ => none] ⟨0, ""⟩
      (by intro q hq; rcases List.mem_singleton.mp hq with rfl; decide)
      (fun hlt => absurd hlt (by decide))).2
      [] (fun q => if q = "p1" then some 5 else none) [fun _ => none] rfl
      ⟨"p1", 5, List.mem_singleton.mpr rfl, by simp, by norm_num⟩
  exact h _ (by simp [monitorRun])

/-- C10 counterexample: primary "A" responds in the first cycle — with
serial 0.  Because only a serial strictly greater than the running
maximum (initially 0) sets the reference primary, `0 > 0` fails, the
reference is never recorded, and the second cycle (in which no primary
answers) is again a quorum failure publishing nothing — contradicting
the claim that after the first cycle in which any primary responds,
every later cycle computes and publishes LagSamples. -/
theorem monitorRun_zero_serial_counterexample :
    ((monitorRun "d" ["A"] [] [fun q => if q = "A" then some 0 else none, fun _ => none]
        ⟨0, ""⟩).map (fun c => c.outcome))
      = [.quorumFailure, .quorumFailure]
    ∧ ((fun q => if q = "A" then some 0 else none : String → Option Nat) "A" = some 0) := by
  exact ⟨rfl, rfl⟩
